import Mathlib

/-!
Verification of the ts-flow task/workflow execution engine.

Shallow embedding of the core of the repository:
* backoff strategies (`src/src/utils/BackoffStrategies.ts`),
* the retry policy (`RetryPolicy`, second document of
  `src/src/core/task/ParallelTask.ts` / cited at lines 95-97),
* the task lifecycle (`Task.run`, first document of `src/unnamed/part_004`,
  lines 121-190),
* the workflow orchestrator (`Workflow`, first document of
  `src/unnamed/part_005`),
* the middleware runner (`src/src/utils/middlewareRunner.ts`),
* the conditional task (`ConditionalTask.run`, `src/unnamed/part_003`,
  lines 63-75),
* the parallel task fan-out (`ParallelTask` constructor executeFn,
  fourth document of `src/src/core/task/ConditionalTask.ts`).

JavaScript runtime values are modelled by the inductive type `Val`
(JS `undefined`, strings, integers, booleans, arrays, objects), thrown JS
errors by `JsErr`.  `Map` objects used by the contexts are modelled as
insertion-ordered association lists with overwrite-in-place semantics
(`setAssoc`), matching `Map.prototype.set`.  Asynchronous code is
single-threaded and cooperative, so it is embedded as deterministic state
passing; fallible code returns `Except JsErr`.  External `pause()` /
`cancel()` calls that the event loop may deliver while a task is being
awaited are modelled by a signal schedule `Nat → Option Sig`, observed at
the top of the workflow's per-task loop - exactly where the source reads
the `isPaused` / `isCancelled` flags.
-/

/-- JavaScript runtime values (the `any`-typed payloads of the engine). -/
inductive Val where
  | undef : Val
  | str : String → Val
  | num : Int → Val
  | bool : Bool → Val
  | list : List Val → Val
  | obj : List (String × Val) → Val

/-- A thrown JavaScript error.  The engine only ever constructs plain
`new Error(message)` values; caller-supplied units of work may throw
anything, which we also model as an `error` with a message. -/
inductive JsErr where
  | error : String → JsErr
deriving DecidableEq, Repr

/-- Embedding of `Map.prototype.set` on an insertion-ordered association list: overwrite
in place when the key is present, append otherwise. -/
def setAssoc (m : List (String × Val)) (k : String) (v : Val) : List (String × Val) :=
  match m with
  | [] => [(k, v)]
  | (k1, v1) :: rest => if k1 = k then (k, v) :: rest else (k1, v1) :: setAssoc rest k v

/-- Source `FixedBackoffStrategy.getDelay` (`src/src/utils/BackoffStrategies.ts`
lines 28-30): the configured delay, independent of the attempt. -/
def FixedBackoffStrategy.getDelay (delay : Nat) (_attempt : Nat) : Nat :=
  delay

/-- Source `ExponentialBackoffStrategy.getDelay` (`src/src/utils/BackoffStrategies.ts`
lines 60-63): `Math.min(initialDelay * 2 ** (attempt - 1), maxDelay)`. -/
def ExponentialBackoffStrategy.getDelay (initialDelay maxDelay : Nat) (attempt : Nat) : Nat :=
  min (initialDelay * 2 ^ (attempt - 1)) maxDelay

/-- Source `LinearBackoffStrategy.getDelay` (`src/src/utils/BackoffStrategies.ts`
lines 93-96): `Math.min(initialDelay * attempt, maxDelay)`. -/
def LinearBackoffStrategy.getDelay (initialDelay maxDelay : Nat) (attempt : Nat) : Nat :=
  min (initialDelay * attempt) maxDelay

/-- Source `RetryPolicy.shouldRetry` (second document of
`src/src/core/task/ParallelTask.ts`, lines 95-97): retry iff
`attempt < maxAttempts`, where `maxAttempts` is the task's `retryCount`
and `attempt` counts the failures seen so far. -/
def RetryPolicy.shouldRetry (maxAttempts : Nat) (_error : JsErr) (attempt : Nat) : Bool :=
  attempt < maxAttempts

/-- Task execution status (`src/src/enums/ETaskStatus`). -/
inductive ETaskStatus where
  | Pending | Running | Retrying | Completed | Failed | TimedOut
deriving DecidableEq, Repr

/-- Observable state threaded through one `Task.run` invocation:
the task's status field, the number of times the unit of work has been
invoked, the errors reported to the error collaborator, the retry delays
slept, the `saveTaskState` calls issued, and the
`context.setTaskOutput` writes. -/
structure TaskSt where
  status : ETaskStatus := .Pending
  attempts : Nat := 0
  errLog : List JsErr := []
  sleeps : List Nat := []
  persistLog : List (String × ETaskStatus) := []
  taskOutputs : List (String × Val) := []

/-- Configuration of a `Task` (first document of `src/unnamed/part_004`):
name, `retryCount` (the `maxAttempts` handed to `RetryPolicy`), the unit
of work `executeFn` (indexed by the number of previous invocations, so a
deterministic model can fail on some attempts and succeed on others), and
the backoff function behind `RetryPolicy.getDelay`.  The claims under
verification use `timeout = 0` (the constructor default), for which the
source arms no timer, so the timeout race is the unit of work itself. -/
structure TaskCfg where
  name : String
  retryCount : Nat
  work : Nat → Except JsErr Val
  backoff : Nat → Nat

/-- The `while (true)` retry loop of `Task.run` (first document of
`src/unnamed/part_004`, lines 121-190), with `attempt` failures so far:
run the unit of work; on success record the output under the task's name,
set status `Completed`, persist, and return; on failure report to the
error collaborator, increment `attempt`, and either retry (status
`Retrying`, sleep `getDelay attempt`) if `RetryPolicy.shouldRetry` says
so, or set status `Failed`, persist, and rethrow the error. -/
def Task.runLoop (cfg : TaskCfg) (attempt : Nat) (st : TaskSt) : TaskSt × Except JsErr Val :=
  match cfg.work attempt with
  | .ok result =>
      ({ st with
          attempts := st.attempts + 1,
          taskOutputs := setAssoc st.taskOutputs cfg.name result,
          status := .Completed,
          persistLog := st.persistLog ++ [(cfg.name, .Completed)] }, .ok result)
  | .error e =>
      let st1 : TaskSt := { st with
        attempts := st.attempts + 1,
        errLog := st.errLog ++ [e] }
      if h : RetryPolicy.shouldRetry cfg.retryCount e (attempt + 1) = true then
        Task.runLoop cfg (attempt + 1)
          { st1 with
            status := .Retrying,
            sleeps := st1.sleeps ++ [cfg.backoff (attempt + 1)] }
      else
        ({ st1 with
            status := .Failed,
            persistLog := st1.persistLog ++ [(cfg.name, .Failed)] }, .error e)
termination_by cfg.retryCount - attempt
decreasing_by
  simp only [RetryPolicy.shouldRetry, decide_eq_true_eq] at h
  omega

/-- Source `Task.run`: set status `Running`, start the loop with `attempt = 0`. -/
def Task.run (cfg : TaskCfg) (st : TaskSt) : TaskSt × Except JsErr Val :=
  Task.runLoop cfg 0 { st with status := .Running }

/-- A task whose `retryCount` is `k` and whose unit of work throws
`Error("boom")` on every attempt (the configuration of the failing
input for the retry-count claim). -/
def alwaysFailTask (k : Nat) : TaskCfg :=
  { name := "t", retryCount := k, work := fun _ => .error (.error "boom"),
    backoff := fun _ => 0 }

/-- Workflow execution status (`src/src/enums/EWorkflowStatus`). -/
inductive EWorkflowStatus where
  | Pending | Running | Paused | Completed | Failed | Cancelled
deriving DecidableEq, Repr

/-- The shared execution context.  `TaskContext`
(`src/src/core/task/TaskContext.ts`) and `WorkflowContext` (first document
of `src/unnamed/part_007`) expose the same four fields: the caller-supplied
input, the output (JS `undefined` until set), the ad hoc key/value map, and
the per-task-output map keyed by task name. -/
structure Ctx where
  input : Val
  output : Val := .undef
  data : List (String × Val) := []
  taskOutputs : List (String × Val) := []

/-- A Task-shaped unit owned by a workflow: a name and a deterministic
`run` acting on the shared context (the embedding of an arbitrary
`ITask.run`, which may mutate the context and may throw). -/
structure WTask where
  name : String
  run : Ctx → Except JsErr Ctx

/-- A lifecycle hook invocation recorded by the `HookManager`. -/
inductive HookCall where
  | workflowStart
  | taskStart : String → HookCall
  | taskFinish : String → HookCall
  | allTasksFinish
  | workflowFinish
  | workflowError : JsErr → HookCall
deriving DecidableEq, Repr

/-- Workflow configuration: the task list and the behavior of the
registered hooks.  `hookErr c = some e` means the hook set registered for
event `c` rejects with `e` when executed (one rejecting hook rejects the
whole `executeHooks` call); `none` means the hooks resolve. -/
structure WfCfg where
  name : String
  tasks : List WTask
  hookErr : HookCall → Option JsErr

/-- Observable state of one `Workflow` object (first document of
`src/unnamed/part_005`): the context, the status, the checkpoint cursor
`currentTaskIndex`, the `isPaused` / `isCancelled` flags, the
`saveWorkflowState` calls issued (each persisting
`{status, currentTaskIndex}`), the hooks fired, the errors reported to
the error collaborator by the workflow, and - instrumentation - the indices
of the tasks the loop has started. -/
structure WfSt where
  ctx : Ctx
  status : EWorkflowStatus := .Pending
  currentTaskIndex : Nat := 0
  isPaused : Bool := false
  isCancelled : Bool := false
  persistLog : List (EWorkflowStatus × Nat) := []
  hookLog : List HookCall := []
  errLog : List JsErr := []
  startedTasks : List Nat := []

/-- The state of a freshly constructed workflow about to run `execute`:
`new WorkflowContext(input)`, status `Pending`, index 0, flags down,
nothing persisted, fired, or reported. -/
def initWfSt (input : Val) : WfSt :=
  { ctx := { input := input } }

/-- An external control action the event loop may deliver while the
workflow is awaiting a task: a `pause()` or a `cancel()` call. -/
inductive Sig where
  | pause | cancel
deriving DecidableEq, Repr

/-- Source `Workflow.pause` / `Workflow.cancel` (first document of
`src/unnamed/part_005`, lines 252-260 and 322-330) applied to the state:
`pause()` is a no-op unless the status is `Running`, otherwise it raises
the flag, moves to `Paused` and persists; `cancel()` is a no-op unless the
status is `Running` or `Paused`, otherwise it raises the flag, moves to
`Cancelled` and persists. -/
def applySig : Option Sig → WfSt → WfSt
  | none, st => st
  | some .pause, st =>
      if st.status = .Running then
        { st with
          isPaused := true,
          status := .Paused,
          persistLog := st.persistLog ++ [(.Paused, st.currentTaskIndex)] }
      else st
  | some .cancel, st =>
      if st.status = .Running ∨ st.status = .Paused then
        { st with
          isCancelled := true,
          status := .Cancelled,
          persistLog := st.persistLog ++ [(.Cancelled, st.currentTaskIndex)] }
      else st

/-- How the per-task `for` loop of `execute` / `resume` ends: it falls
through (loop condition false, or `break` on cancellation), it returns
early with the context's current output (pause check), or an exception
propagates out of it. -/
inductive LoopRes where
  | fellThrough
  | earlyReturn : Val → LoopRes
  | threw : JsErr → LoopRes

/-- The shared per-task loop of `Workflow.execute` (first document of
`src/unnamed/part_005`, lines 161-181) and `Workflow.resume` (lines
280-300), iterating over the remaining tasks.  The list argument is
`cfg.tasks.drop st.currentTaskIndex` at every call (the top-level
entry points establish this and the body advances both in lockstep, so
the head of the list is `this.tasks[this.currentTaskIndex]`).  At the top
of each iteration the pending external signal, if any, is applied - the
source observes such signals through the `isCancelled` / `isPaused`
checks at exactly this point.  The body fires `onTaskStart`, runs the
task through the middleware pipeline (the workflow under verification
registers none, so the pipeline invokes `task.run` directly), fires
`onTaskFinish`, persists the checkpoint, and advances the index.  A hook
rejection or a task exception propagates out of the loop. -/
def wfLoopGo (cfg : WfCfg) (sched : Nat → Option Sig) :
    List WTask → WfSt → WfSt × LoopRes
  | [], st => (st, .fellThrough)
  | t :: rest, st0 =>
      let st := applySig (sched st0.currentTaskIndex) st0
      if st.isCancelled then
        (st, .fellThrough)
      else if st.isPaused then
        ({ st with persistLog := st.persistLog ++ [(st.status, st.currentTaskIndex)] },
          .earlyReturn st.ctx.output)
      else
        let st1 : WfSt := { st with
          hookLog := st.hookLog ++ [.taskStart t.name],
          startedTasks := st.startedTasks ++ [st.currentTaskIndex] }
        match cfg.hookErr (.taskStart t.name) with
        | some e => (st1, .threw e)
        | none =>
            match t.run st1.ctx with
            | .error e => (st1, .threw e)
            | .ok ctx1 =>
                let st2 : WfSt := { st1 with
                  ctx := ctx1,
                  hookLog := st1.hookLog ++ [.taskFinish t.name] }
                match cfg.hookErr (.taskFinish t.name) with
                | some e => (st2, .threw e)
                | none =>
                    let st3 : WfSt := { st2 with
                      persistLog := st2.persistLog ++ [(st2.status, st2.currentTaskIndex)] }
                    wfLoopGo cfg sched rest { st3 with
                      currentTaskIndex := st3.currentTaskIndex + 1 }

/-- Code after the loop in `Workflow.execute` (first document of
`src/unnamed/part_005`, lines 183-196): when neither cancelled nor
paused, fire `onAllTasksFinish` and `onWorkflowFinish` (each may reject,
propagating into the catch), set status `Completed`, persist, collapse
all per-task outputs into the context's output and return it; otherwise
return the context's current output unchanged. -/
def Workflow.afterLoop (cfg : WfCfg) (st : WfSt) : WfSt × Except JsErr Val :=
  if st.isCancelled = false ∧ st.isPaused = false then
    let stA : WfSt := { st with hookLog := st.hookLog ++ [.allTasksFinish] }
    match cfg.hookErr .allTasksFinish with
    | some e => (stA, .error e)
    | none =>
        let stB : WfSt := { stA with hookLog := stA.hookLog ++ [.workflowFinish] }
        match cfg.hookErr .workflowFinish with
        | some e => (stB, .error e)
        | none =>
            let stC : WfSt := { stB with
              status := .Completed,
              persistLog := stB.persistLog ++ [(.Completed, stB.currentTaskIndex)] }
            let ctx1 : Ctx := { stC.ctx with output := .obj stC.ctx.taskOutputs }
            ({ stC with ctx := ctx1 }, .ok ctx1.output)
  else
    (st, .ok st.ctx.output)

/-- The body of the `try` block of `Workflow.execute` (first document of
`src/unnamed/part_005`, lines 154-196): set status `Running`, persist,
fire `onWorkflowStart` (a rejection propagates), run the per-task loop
from the current index, then the after-loop code.  A pause inside the
loop returns the context's current output; an exception propagates. -/
def Workflow.tryBody (cfg : WfCfg) (sched : Nat → Option Sig) (st : WfSt) :
    WfSt × Except JsErr Val :=
  let st1 : WfSt := { st with
    status := .Running,
    persistLog := st.persistLog ++ [(.Running, st.currentTaskIndex)] }
  let st2 : WfSt := { st1 with hookLog := st1.hookLog ++ [.workflowStart] }
  match cfg.hookErr .workflowStart with
  | some e => (st2, .error e)
  | none =>
      match wfLoopGo cfg sched (cfg.tasks.drop st2.currentTaskIndex) st2 with
      | (st3, .earlyReturn v) => (st3, .ok v)
      | (st3, .threw e) => (st3, .error e)
      | (st3, .fellThrough) => Workflow.afterLoop cfg st3

/-- The `catch` block of `Workflow.execute` (first document of
`src/unnamed/part_005`, lines 197-207): report the exception to the error
collaborator, fire `onWorkflowError` with it (if that hook set itself
rejects, the new rejection propagates instead and the status is never set),
set status `Failed`, persist, and rethrow the very same exception. -/
def Workflow.catchBlock (cfg : WfCfg) (e : JsErr) (st : WfSt) : WfSt × Except JsErr Val :=
  let st1 : WfSt := { st with
    errLog := st.errLog ++ [e],
    hookLog := st.hookLog ++ [.workflowError e] }
  match cfg.hookErr (.workflowError e) with
  | some e2 => (st1, .error e2)
  | none =>
      ({ st1 with
          status := .Failed,
          persistLog := st1.persistLog ++ [(.Failed, st1.currentTaskIndex)] }, .error e)

/-- The `Error("Workflow input validation failed: ...")` thrown by
`execute` when the validator reports violations (first document of
`src/unnamed/part_005`, line 150). -/
def validationError (errs : List String) : JsErr :=
  .error ("Workflow input validation failed: " ++ String.intercalate ", " errs)

/-- Source `Workflow.execute` (first document of `src/unnamed/part_005`, lines
143-208): construct a fresh context from the input, run the caller's
validator and throw a validation error listing all violations before any
state transition, then run the `try` body under the `catch` block. -/
def Workflow.execute (cfg : WfCfg) (validator : Val → List String)
    (sched : Nat → Option Sig) (input : Val) : WfSt × Except JsErr Val :=
  let st0 := initWfSt input
  let errs := validator input
  if errs.length > 0 then
    (st0, .error (validationError errs))
  else
    match Workflow.tryBody cfg sched st0 with
    | (st, .ok v) => (st, .ok v)
    | (st, .error e) => Workflow.catchBlock cfg e st

/-- The `Error("Workflow \"name\" is not paused.")` thrown by `resume`
on a workflow that is not paused (first document of `src/unnamed/part_005`,
line 274). -/
def notPausedError (name : String) : JsErr :=
  .error ("Workflow \x22" ++ name ++ "\x22 is not paused.")

/-- Code after the loop in `Workflow.resume` (first document of
`src/unnamed/part_005`, lines 302-311): when neither cancelled nor paused,
fire `onAllTasksFinish` and `onWorkflowFinish` (each may reject,
propagating raw - `resume` has no catch), set status `Completed` and
persist; then - unconditionally - collapse all per-task outputs into the
context's output and return it. -/
def Workflow.resumeTail (cfg : WfCfg) (st : WfSt) : WfSt × Except JsErr Val :=
  if st.isCancelled = false ∧ st.isPaused = false then
    let stA : WfSt := { st with hookLog := st.hookLog ++ [.allTasksFinish] }
    match cfg.hookErr .allTasksFinish with
    | some e => (stA, .error e)
    | none =>
        let stB : WfSt := { stA with hookLog := stA.hookLog ++ [.workflowFinish] }
        match cfg.hookErr .workflowFinish with
        | some e => (stB, .error e)
        | none =>
            let stC : WfSt := { stB with
              status := .Completed,
              persistLog := stB.persistLog ++ [(.Completed, stB.currentTaskIndex)] }
            let ctx1 : Ctx := { stC.ctx with output := .obj stC.ctx.taskOutputs }
            ({ stC with ctx := ctx1 }, .ok ctx1.output)
  else
    let ctx1 : Ctx := { st.ctx with output := .obj st.ctx.taskOutputs }
    ({ st with ctx := ctx1 }, .ok ctx1.output)

/-- Source `Workflow.resume` (first document of `src/unnamed/part_005`, lines
271-312): throw `Error("Workflow \"name\" is not paused.")` unless the
status is `Paused`; otherwise lower the pause flag, set status `Running`,
persist, and repeat the per-task loop from the persisted index followed
by the resume tail.  Unlike `execute`, there is no validator pass, no
fresh context, no `onWorkflowStart`, and no catch. -/
def Workflow.resume (cfg : WfCfg) (sched : Nat → Option Sig) (st : WfSt) :
    WfSt × Except JsErr Val :=
  if st.status = .Paused then
    let st1 : WfSt := { st with
      isPaused := false,
      status := .Running,
      persistLog := st.persistLog ++ [(.Running, st.currentTaskIndex)] }
    match wfLoopGo cfg sched (cfg.tasks.drop st1.currentTaskIndex) st1 with
    | (st2, .earlyReturn v) => (st2, .ok v)
    | (st2, .threw e) => (st2, .error e)
    | (st2, .fellThrough) => Workflow.resumeTail cfg st2
  else
    (st, .error (notPausedError cfg.name))

/-- The context `task.run` produces, defaulting to the
unchanged context when the task throws (used to state lemmas about runs
in which every task succeeds). -/
def applyTask (t : WTask) (ctx : Ctx) : Ctx :=
  match t.run ctx with
  | .ok ctx1 => ctx1
  | .error _ => ctx

/-- Sequential application of a list of tasks to a context. -/
def foldTasks (ts : List WTask) (ctx : Ctx) : Ctx :=
  ts.foldl (fun c t => applyTask t c) ctx

/-- The schedule delivering no external signal. -/
def schedNone : Nat → Option Sig := fun _ => none

/-- The schedule where `pause()` is called while the second task (index 1)
is running, so the loop observes the pause at the top of iteration 2. -/
def schedPauseAt2 : Nat → Option Sig := fun i => if i = 2 then some .pause else none

/-- A workflow with no tasks and resolving hooks (witness scenario). -/
def cfgEmptyW : WfCfg :=
  { name := "w", tasks := [], hookErr := fun _ => none }

/-- A paused empty-workflow state (witness scenario). -/
def pausedEmptyW : WfSt :=
  { ctx := { input := .undef }, status := .Paused, isPaused := true }

/-- A task whose unit of work always throws `Error("boom")`
(witness scenario). -/
def failTaskW : WTask :=
  { name := "boom", run := fun _ => .error (.error "boom") }

/-- A one-task workflow whose only task always fails and whose hooks all
resolve (witness scenario). -/
def cfgFailW : WfCfg :=
  { name := "wf", tasks := [failTaskW], hookErr := fun _ => none }

/-- A mid-execution running state: task 0 is done and its output is
recorded, the loop is at index 1 (witness scenario). -/
def runningW : WfSt :=
  { ctx := { input := .undef, taskOutputs := [("a", .num 1)] },
    status := .Running,
    currentTaskIndex := 1,
    persistLog := [(.Running, 0)],
    hookLog := [.workflowStart, .taskStart "a", .taskFinish "a"],
    startedTasks := [0] }

/-- The state in which `execute` hands back a workflow paused at
iteration 2 after tasks 0 and 1 completed (derived from the source's
loop; used to state the pause/resume refinement). -/
def execPausedSt (input : Val) (t0 t1 : WTask) : WfSt :=
  { ctx := applyTask t1 (applyTask t0 { input := input }),
    status := .Paused,
    currentTaskIndex := 2,
    isPaused := true,
    isCancelled := false,
    persistLog := [(.Running, 0), (.Running, 0), (.Running, 1), (.Paused, 2), (.Paused, 2)],
    hookLog := [.workflowStart, .taskStart t0.name, .taskFinish t0.name,
      .taskStart t1.name, .taskFinish t1.name],
    errLog := [],
    startedTasks := [0, 1] }

/-- A task writing a fixed value into the per-task-output map under its
own name (witness scenario; the behavior of a plain `Task` whose unit of
work returns `v`). -/
def mkOutTask (name : String) (v : Val) : WTask :=
  { name := name,
    run := fun ctx => .ok { ctx with taskOutputs := setAssoc ctx.taskOutputs name v } }

/-- A three-task workflow with resolving hooks (witness scenario). -/
def cfg3W : WfCfg :=
  { name := "w3",
    tasks := [mkOutTask "a" (.num 1), mkOutTask "b" (.num 2), mkOutTask "c" (.num 3)],
    hookErr := fun _ => none }

/-- A middleware function exactly as `runMiddlewareWithTask` receives it
(`src/src/utils/middlewareRunner.ts`): it is handed the shared context
and a continuation and produces the resulting context state. -/
def Mw (σ : Type) : Type :=
  σ → (σ → σ) → σ

/-- The recursive `run` closure of `runMiddlewareWithTask`
(`src/src/utils/middlewareRunner.ts`, lines 28-35): while middlewares
remain, hand the context to the next one together with the continuation
over the rest; past the end, run the task body.  (The source advances a
shared index; for middlewares that invoke their continuation at most
once - the discipline of the claims - this recursion is that loop.) -/
def runFrom {σ : Type} (next : σ → σ) : List (Mw σ) → σ → σ
  | [], s => next s
  | m :: rest, s => m s (runFrom next rest)

/-- Source `runMiddlewareWithTask` (`src/src/utils/middlewareRunner.ts`, lines
16-41): with a non-empty middleware list start the recursive chain,
otherwise call the task body (`next`) directly. -/
def runMiddlewareWithTask {σ : Type} (middleware : List (Mw σ)) (s : σ)
    (next : σ → σ) : σ :=
  if middleware.length > 0 then runFrom next middleware s else next s

/-- A structured caller-supplied middleware: logic before, at most one
invocation of the continuation, logic after. -/
structure MwSpec (σ : Type) where
  before : σ → σ
  callsNext : Bool
  after : σ → σ

/-- The middleware function a structured middleware denotes. -/
def MwSpec.toMw {σ : Type} (m : MwSpec σ) : Mw σ :=
  fun s k => m.after (if m.callsNext then k (m.before s) else m.before s)

/-- The before/after nesting a structured middleware list denotes when
every middleware invokes its continuation: the head of the list is the
outermost wrapper and the task body sits in the middle, applied once. -/
def nestWrap {σ : Type} (specs : List (MwSpec σ)) (next : σ → σ) : σ → σ :=
  specs.foldr (fun m k s => m.after (k (m.before s))) next

/-- Two logging middlewares that both invoke their continuation
(witness scenario). -/
def mwLog2 : List (MwSpec (List String)) :=
  [{ before := fun l => l ++ ["before 0"], callsNext := true,
     after := fun l => l ++ ["after 0"] },
   { before := fun l => l ++ ["before 1"], callsNext := true,
     after := fun l => l ++ ["after 1"] }]

/-- Result of one `ConditionalTask.run` call: the final context, the
number of predicate evaluations performed during the call
(instrumentation of the single call site at line 64 of
`src/unnamed/part_003`), the names of the child tasks invoked
(instrumentation), and the returned output or propagated exception. -/
structure CondRunRes where
  ctx : Ctx
  condEvals : Nat
  childrenRun : List String
  result : Except JsErr Val

/-- The sequential child loop of `ConditionalTask.run`
(`src/unnamed/part_003`, lines 66-68): run each child in list order on
the shared context, propagating the first exception. -/
def condRunChildren : List WTask → Ctx → List String → Ctx × List String × Option JsErr
  | [], ctx, log => (ctx, log, none)
  | t :: rest, ctx, log =>
      match t.run ctx with
      | .error e => (ctx, log ++ [t.name], some e)
      | .ok ctx1 => condRunChildren rest ctx1 (log ++ [t.name])

/-- Source `ConditionalTask.run` (`src/unnamed/part_003`, lines 63-75): evaluate
the caller's predicate against the context - once - and when it holds run
the children sequentially, otherwise do nothing; finally return the
context's current output (or let a child's exception propagate). -/
def ConditionalTask.run (condition : Ctx → Bool) (tasks : List WTask)
    (ctx : Ctx) : CondRunRes :=
  if condition ctx then
    match condRunChildren tasks ctx [] with
    | (ctx1, log, some e) =>
        { ctx := ctx1, condEvals := 1, childrenRun := log, result := .error e }
    | (ctx1, log, none) =>
        { ctx := ctx1, condEvals := 1, childrenRun := log, result := .ok ctx1.output }
  else
    { ctx := ctx, condEvals := 1, childrenRun := [], result := .ok ctx.output }

/-- An always-succeeding child of a Parallel Task: it settles after
`delay` cooperative time units with `result`. -/
structure PChild where
  delay : Nat
  result : Val

/-- Stable insertion into the completion log ordered by settlement time
(JS timers with equal delays fire in registration order, so an
earlier-registered child stays ahead of a same-delay later one). -/
def insertByDelay (x : Nat × PChild) : List (Nat × PChild) → List (Nat × PChild)
  | [] => [x]
  | y :: ys => if x.2.delay ≤ y.2.delay then x :: y :: ys else y :: insertByDelay x ys

/-- Settlement order of the indexed children (stable insertion sort by
delay). -/
def sortByDelay : List (Nat × PChild) → List (Nat × PChild)
  | [] => []
  | x :: xs => insertByDelay x (sortByDelay xs)

/-- The completion log of `Promise.all`: the children as `(index, child)`
pairs in the order in which they settle. -/
def completionOrder (children : List PChild) : List (Nat × PChild) :=
  sortByDelay children.enum

/-- Reading one slot of the result array `Promise.all` maintains: child
`i`'s settlement wrote its result into slot `i`, whatever its position in
the completion log. -/
def slotLookup (i : Nat) : List (Nat × PChild) → Val
  | [] => .undef
  | (j, c) :: rest => if j = i then c.result else slotLookup i rest

/-- The array `Promise.all(children)` resolves with: all children settle
(in completion order), each filling its own slot; the resolved array is
the slots read in index order. -/
def promiseAllValues (children : List PChild) : List Val :=
  (List.range children.length).map (fun i => slotLookup i (completionOrder children))

/-- The `executeFn` of `ParallelTask` (fourth document of
`src/src/core/task/ConditionalTask.ts`, lines 119-147), as the `Task`
configuration the `ParallelTask` constructor builds (`super(name,
executeFn, undefined, logger)`, so `retryCount = 0` and `timeout = 0`):
await `Promise.all` over the children - each wrapped individually by the
middleware pipeline, which is empty here - and resolve with the ordered
result array, which the inherited `Task.run` records and returns. -/
def ParallelTask.mkTaskCfg (name : String) (children : List PChild) : TaskCfg :=
  { name := name,
    retryCount := 0,
    work := fun _ => .ok (.list (promiseAllValues children)),
    backoff := fun _ => 0 }

-- ===================== THEOREMS =====================

/-- A task that resolves with `ctx1` on the given context is `applyTask`. -/
theorem applyTask_eq {t : WTask} {ctx ctx1 : Ctx} (h : t.run ctx = .ok ctx1) :
    applyTask t ctx = ctx1 := by
  simp [applyTask, h]

/-- One successful, unsignalled iteration of the per-task loop advances to
the stepped state and continues with the remaining tasks. -/
theorem wfLoopGo_step (cfg : WfCfg) (sched : Nat → Option Sig) (t : WTask)
    (rest : List WTask) (st : WfSt) (ctx1 : Ctx)
    (hsig : sched st.currentTaskIndex = none)
    (hp : st.isPaused = false) (hc : st.isCancelled = false)
    (hrun : t.run st.ctx = .ok ctx1)
    (hhs : cfg.hookErr (.taskStart t.name) = none)
    (hhf : cfg.hookErr (.taskFinish t.name) = none) :
    wfLoopGo cfg sched (t :: rest) st =
      wfLoopGo cfg sched rest { st with
        ctx := ctx1,
        hookLog := st.hookLog ++ [.taskStart t.name, .taskFinish t.name],
        startedTasks := st.startedTasks ++ [st.currentTaskIndex],
        persistLog := st.persistLog ++ [(st.status, st.currentTaskIndex)],
        currentTaskIndex := st.currentTaskIndex + 1 } := by
  simp [wfLoopGo, applySig, hsig, hp, hc, hrun, hhs, hhf]

/-- A pause signal delivered at the top of an iteration (while the
previous task was running) makes the loop persist the checkpoint twice -
once inside `pause()` and once at the pause check - and return early with
the context's current output, running nothing further. -/
theorem wfLoopGo_pause (cfg : WfCfg) (sched : Nat → Option Sig) (t : WTask)
    (rest : List WTask) (st : WfSt)
    (hsig : sched st.currentTaskIndex = some .pause)
    (hst : st.status = .Running) (hc : st.isCancelled = false) :
    wfLoopGo cfg sched (t :: rest) st =
      ({ st with
          isPaused := true,
          status := .Paused,
          persistLog := st.persistLog ++
            [(.Paused, st.currentTaskIndex), (.Paused, st.currentTaskIndex)] },
        .earlyReturn st.ctx.output) := by
  simp [wfLoopGo, applySig, hsig, hst, hc]

/-- Characterization of an unsignalled loop run in which every remaining
task succeeds and no hook rejects: the loop falls through having run the
remaining tasks in order exactly once each. -/
theorem wfLoopGo_success (cfg : WfCfg) (hh : ∀ c, cfg.hookErr c = none) :
    ∀ (rest : List WTask) (st : WfSt),
      (∀ t ∈ rest, ∀ ctx, ∃ ctx1, t.run ctx = .ok ctx1) →
      st.isPaused = false → st.isCancelled = false →
      ∃ st1, wfLoopGo cfg schedNone rest st = (st1, .fellThrough) ∧
        st1.ctx = foldTasks rest st.ctx ∧
        st1.startedTasks = st.startedTasks ++ List.range' st.currentTaskIndex rest.length ∧
        st1.currentTaskIndex = st.currentTaskIndex + rest.length ∧
        st1.isPaused = false ∧ st1.isCancelled = false ∧ st1.status = st.status := by
  intro rest
  induction rest with
  | nil =>
      intro st _ hp hc
      exact ⟨st, by simp [wfLoopGo], by simp [foldTasks], by simp, by simp, hp, hc, rfl⟩
  | cons t rest ih =>
      intro st hs hp hc
      obtain ⟨ctx1, hrun⟩ := hs t (List.mem_cons_self t rest) st.ctx
      rw [wfLoopGo_step cfg schedNone t rest st ctx1 rfl hp hc hrun (hh _) (hh _)]
      obtain ⟨st1, heq, hctx, hstart, hidx, hp1, hc1, hstat⟩ :=
        ih { st with
              ctx := ctx1,
              hookLog := st.hookLog ++ [.taskStart t.name, .taskFinish t.name],
              startedTasks := st.startedTasks ++ [st.currentTaskIndex],
              persistLog := st.persistLog ++ [(st.status, st.currentTaskIndex)],
              currentTaskIndex := st.currentTaskIndex + 1 }
          (fun t2 ht2 ctx => hs t2 (List.mem_cons_of_mem t ht2) ctx) hp hc
      refine ⟨st1, heq, ?_, ?_, ?_, hp1, hc1, hstat⟩
      · rw [hctx]
        simp [foldTasks, applyTask_eq hrun]
      · rw [hstart]
        simp [List.range'_succ, List.append_assoc]
      · rw [hidx]
        simp
        omega

/-- Calling `resume` on a workflow whose status is not `Paused` throws the
not-paused error and leaves the state untouched (no task is run). -/
theorem resume_of_not_paused (cfg : WfCfg) (sched : Nat → Option Sig) (st : WfSt)
    (h : st.status ≠ .Paused) :
    Workflow.resume cfg sched st = (st, .error (notPausedError cfg.name)) := by
  simp [Workflow.resume, h]

/-- Any exception propagating out of the per-task loop originates either
from a registered hook set or from one of the remaining tasks. -/
theorem wfLoopGo_threw_origin (cfg : WfCfg) (sched : Nat → Option Sig) :
    ∀ (rest : List WTask) (st st1 : WfSt) (e : JsErr),
      wfLoopGo cfg sched rest st = (st1, .threw e) →
      (∃ c, cfg.hookErr c = some e) ∨ (∃ t ∈ rest, ∃ ctx, t.run ctx = .error e) := by
  intro rest
  induction rest with
  | nil =>
      intro st st1 e h
      simp [wfLoopGo] at h
  | cons t rest ih =>
      intro st st1 e h
      rw [wfLoopGo] at h
      set stA := applySig (sched st.currentTaskIndex) st with hstA
      cases h1 : stA.isCancelled with
      | true => simp [h1] at h
      | false =>
        cases h2 : stA.isPaused with
        | true => simp [h1, h2] at h
        | false =>
          simp only [h1, h2, Bool.false_eq_true, if_false] at h
          cases hhs : cfg.hookErr (HookCall.taskStart t.name) with
          | some e1 =>
              simp only [hhs, Prod.mk.injEq, LoopRes.threw.injEq] at h
              exact Or.inl ⟨_, hhs.trans (congrArg some h.2)⟩
          | none =>
              cases hrun : t.run stA.ctx with
              | error e1 =>
                  simp only [hhs, hrun, Prod.mk.injEq, LoopRes.threw.injEq] at h
                  exact Or.inr ⟨t, List.mem_cons_self t rest, stA.ctx, by rw [hrun, h.2]⟩
              | ok ctx1 =>
                  cases hhf : cfg.hookErr (HookCall.taskFinish t.name) with
                  | some e1 =>
                      simp only [hhs, hrun, hhf, Prod.mk.injEq, LoopRes.threw.injEq] at h
                      exact Or.inl ⟨_, hhf.trans (congrArg some h.2)⟩
                  | none =>
                      simp only [hhs, hrun, hhf] at h
                      rcases ih _ _ _ h with hOr | ⟨t2, ht2, hx⟩
                      · exact Or.inl hOr
                      · exact Or.inr ⟨t2, List.mem_cons_of_mem t ht2, hx⟩

/-- Any exception surfacing from the resume tail comes from a hook set. -/
theorem resumeTail_error_origin (cfg : WfCfg) (st : WfSt) (e : JsErr)
    (h : (Workflow.resumeTail cfg st).2 = .error e) : ∃ c, cfg.hookErr c = some e := by
  rw [Workflow.resumeTail] at h
  split at h
  · cases hA : cfg.hookErr HookCall.allTasksFinish with
    | some e1 =>
        simp only [hA] at h
        simp at h
        exact ⟨_, hA.trans (by rw [h])⟩
    | none =>
        cases hB : cfg.hookErr HookCall.workflowFinish with
        | some e1 =>
            simp only [hA, hB] at h
            simp at h
            exact ⟨_, hB.trans (by rw [h])⟩
        | none =>
            simp [hA, hB] at h
  · simp at h

/-- Any exception thrown by `resume` on a paused workflow originates from
a hook set or from one of the workflow's tasks - never from the
not-paused guard. -/
theorem resume_result_origin (cfg : WfCfg) (sched : Nat → Option Sig) (st : WfSt) (e : JsErr)
    (hp : st.status = .Paused)
    (heq : (Workflow.resume cfg sched st).2 = .error e) :
    (∃ c, cfg.hookErr c = some e) ∨ (∃ t ∈ cfg.tasks, ∃ ctx, t.run ctx = .error e) := by
  rw [Workflow.resume, if_pos hp] at heq
  simp only [] at heq
  split at heq
  · simp at heq
  · rename_i st2 e1 hloop
    simp at heq
    rcases wfLoopGo_threw_origin cfg sched _ _ _ _ hloop with h1 | ⟨t, ht, hx⟩
    · exact Or.inl (heq ▸ h1)
    · exact Or.inr ⟨t, List.drop_subset _ _ ht, heq ▸ hx⟩
  · rename_i st2 hloop
    exact Or.inl (resumeTail_error_origin cfg st2 e heq)

/-- C5: `resume()` on a workflow whose status is not `Paused` rejects
with the invalid-state error `Error("Workflow \"name\" is not paused.")`
leaving the state untouched (in particular no task is run); on a paused
workflow `resume()` never rejects with that error (provided no task or
hook independently throws that very error value, which only caller code
could do). -/
theorem C5_resume_invalid_state (cfg : WfCfg) (sched : Nat → Option Sig) (st : WfSt) :
    (st.status ≠ .Paused →
        Workflow.resume cfg sched st = (st, .error (notPausedError cfg.name))) ∧
    (st.status = .Paused →
        (∀ t ∈ cfg.tasks, ∀ ctx e, t.run ctx = .error e → e ≠ notPausedError cfg.name) →
        (∀ c e, cfg.hookErr c = some e → e ≠ notPausedError cfg.name) →
        (Workflow.resume cfg sched st).2 ≠ .error (notPausedError cfg.name)) := by
  constructor
  · exact resume_of_not_paused cfg sched st
  · intro hp hTasks hHooks heq
    rcases resume_result_origin cfg sched st _ hp heq with ⟨c, hc⟩ | ⟨t, ht, ctx, hx⟩
    · exact hHooks c _ hc rfl
    · exact hTasks t ht ctx _ hx rfl

/-- Witness for C5: a pending workflow rejects resume with the
invalid-state error; a paused empty workflow does not. -/
theorem C5_resume_invalid_state_witness :
    Workflow.resume cfgEmptyW schedNone (initWfSt .undef) =
      (initWfSt .undef, .error (notPausedError "w")) ∧
    (Workflow.resume cfgEmptyW schedNone pausedEmptyW).2 ≠
      .error (notPausedError "w") := by
  constructor
  · exact (C5_resume_invalid_state cfgEmptyW schedNone (initWfSt .undef)).1 (by decide)
  · exact (C5_resume_invalid_state cfgEmptyW schedNone pausedEmptyW).2 (by decide)
      (by intro t ht; simp [cfgEmptyW] at ht) (by intro c e hc; simp [cfgEmptyW] at hc)

/-- C10: when the configured validator reports a non-empty list of
violations, `execute` throws the validation error before any state
transition: the returned state is the freshly constructed one - status
still `Pending`, no hook fired (in particular not `onWorkflowError`), no
error reported to the error collaborator, nothing persisted, and no task
started. -/
theorem C10_validator_fails_fast (cfg : WfCfg) (validator : Val → List String)
    (sched : Nat → Option Sig) (input : Val)
    (hv : validator input ≠ []) :
    Workflow.execute cfg validator sched input =
      (initWfSt input, .error (validationError (validator input))) ∧
    (initWfSt input).status = .Pending ∧
    (initWfSt input).hookLog = [] ∧
    (initWfSt input).errLog = [] ∧
    (initWfSt input).persistLog = [] ∧
    (initWfSt input).startedTasks = [] := by
  have h0 : 0 < (validator input).length := List.length_pos.mpr hv
  exact ⟨by simp [Workflow.execute, h0], rfl, rfl, rfl, rfl, rfl⟩

/-- Witness for C10 with a validator reporting one violation. -/
theorem C10_validator_fails_fast_witness :
    Workflow.execute cfgEmptyW (fun _ => ["missing id"]) schedNone .undef =
      (initWfSt .undef, .error (validationError ["missing id"])) :=
  (C10_validator_fails_fast cfgEmptyW (fun _ => ["missing id"]) schedNone .undef
    (by simp)).1

/-- C6: every exception `e` that surfaces from the `try` body of
`Workflow.execute` - from a task or from a hook of the task loop - is
caught exactly once: it is reported to the error collaborator exactly
once, the `onWorkflowError` hooks fire with that very exception, the
status is set to `Failed`, the state is persisted, and the very same
exception is rethrown to the caller (provided the `onWorkflowError`
hook set itself resolves). -/
theorem C6_execute_catch (cfg : WfCfg) (validator : Val → List String)
    (sched : Nat → Option Sig) (input : Val) (st2 : WfSt) (e : JsErr)
    (hv : validator input = [])
    (hb : Workflow.tryBody cfg sched (initWfSt input) = (st2, .error e))
    (hh : cfg.hookErr (.workflowError e) = none) :
    Workflow.execute cfg validator sched input =
      ({ st2 with
          errLog := st2.errLog ++ [e],
          hookLog := st2.hookLog ++ [.workflowError e],
          status := .Failed,
          persistLog := st2.persistLog ++ [(.Failed, st2.currentTaskIndex)] },
        .error e) := by
  rw [Workflow.execute]
  simp only [hv, List.length_nil, gt_iff_lt, Nat.lt_irrefl, if_false, hb,
    Workflow.catchBlock, hh]

/-- Witness for C6: a one-task workflow whose task throws `Error("boom")`
rethrows exactly that error, reports it once, and ends `Failed`. -/
theorem C6_execute_catch_witness :
    (Workflow.execute cfgFailW (fun _ => []) schedNone .undef).2 =
      .error (.error "boom") ∧
    (Workflow.execute cfgFailW (fun _ => []) schedNone .undef).1.status = .Failed ∧
    (Workflow.execute cfgFailW (fun _ => []) schedNone .undef).1.errLog =
      [.error "boom"] ∧
    (Workflow.execute cfgFailW (fun _ => []) schedNone .undef).1.hookLog =
      [.workflowStart, .taskStart "boom", .workflowError (.error "boom")] := by
  have h := C6_execute_catch cfgFailW (fun _ => []) schedNone .undef _ _ rfl rfl rfl
  rw [h]
  exact ⟨rfl, rfl, rfl, rfl⟩

/-- C9: from the moment a `cancel()` is observed, the per-task loop breaks
at once: no further task is started, the context - including every
recorded task output - is exactly the context at cancellation time,
`execute`'s after-loop code returns it untouched, and a later `resume`
refuses to run (the status is `Cancelled`, not `Paused`).  Cancelling a
paused workflow likewise preserves the context and makes `resume`
refuse. -/
theorem C9_cancel_stops_tasks (cfg : WfCfg) (sched sched2 : Nat → Option Sig)
    (t : WTask) (rest : List WTask) (st : WfSt)
    (hsig : sched st.currentTaskIndex = some .cancel)
    (hst : st.status = .Running) :
    (wfLoopGo cfg sched (t :: rest) st =
      ({ st with
          isCancelled := true,
          status := .Cancelled,
          persistLog := st.persistLog ++ [(.Cancelled, st.currentTaskIndex)] },
        .fellThrough)) ∧
    (Workflow.afterLoop cfg { st with
        isCancelled := true,
        status := .Cancelled,
        persistLog := st.persistLog ++ [(.Cancelled, st.currentTaskIndex)] } =
      ({ st with
          isCancelled := true,
          status := .Cancelled,
          persistLog := st.persistLog ++ [(.Cancelled, st.currentTaskIndex)] },
        .ok st.ctx.output)) ∧
    (Workflow.resume cfg sched2 { st with
        isCancelled := true,
        status := .Cancelled,
        persistLog := st.persistLog ++ [(.Cancelled, st.currentTaskIndex)] } =
      ({ st with
          isCancelled := true,
          status := .Cancelled,
          persistLog := st.persistLog ++ [(.Cancelled, st.currentTaskIndex)] },
        .error (notPausedError cfg.name))) ∧
    (∀ stP : WfSt, stP.status = .Paused →
        (applySig (some .cancel) stP).ctx = stP.ctx ∧
        Workflow.resume cfg sched2 (applySig (some .cancel) stP) =
          (applySig (some .cancel) stP, .error (notPausedError cfg.name))) := by
  refine ⟨?_, ?_, ?_, ?_⟩
  · simp [wfLoopGo, applySig, hsig, hst]
  · simp [Workflow.afterLoop]
  · exact resume_of_not_paused cfg sched2 _ (by simp)
  · intro stP hP
    constructor
    · simp [applySig, hP]
    · refine resume_of_not_paused cfg sched2 _ ?_
      simp [applySig, hP]

/-- Witness for C9: cancelling the one-task workflow while it is at
index 1 starts nothing further and keeps the recorded output of task 0. -/
theorem C9_cancel_stops_tasks_witness :
    (wfLoopGo cfgFailW (fun _ => some .cancel) [failTaskW] runningW).1.ctx.taskOutputs =
      [("a", .num 1)] ∧
    (wfLoopGo cfgFailW (fun _ => some .cancel) [failTaskW] runningW).1.startedTasks =
      [0] ∧
    (wfLoopGo cfgFailW (fun _ => some .cancel) [failTaskW] runningW).2 =
      .fellThrough := by
  have h := (C9_cancel_stops_tasks cfgFailW (fun _ => some .cancel) schedNone
    failTaskW [] runningW rfl rfl).1
  rw [h]
  exact ⟨rfl, rfl, rfl⟩

/-- An uninterrupted `execute` in which the validator passes, every hook
resolves and every task succeeds completes: it starts every task exactly
once in list order and returns the collapsed per-task-output object. -/
theorem execute_success (cfg : WfCfg) (validator : Val → List String) (input : Val)
    (hv : validator input = [])
    (hh : ∀ c, cfg.hookErr c = none)
    (hs : ∀ t ∈ cfg.tasks, ∀ ctx, ∃ ctx1, t.run ctx = .ok ctx1) :
    ∃ st1, Workflow.execute cfg validator schedNone input =
        (st1, .ok (.obj (foldTasks cfg.tasks { input := input }).taskOutputs)) ∧
      st1.startedTasks = List.range cfg.tasks.length ∧
      st1.status = .Completed := by
  obtain ⟨st2, hloop, hctx, hstart, hidx, hp2, hc2, hstat2⟩ :=
    wfLoopGo_success cfg hh cfg.tasks
      { ctx := { input := input },
        status := .Running,
        currentTaskIndex := 0,
        isPaused := false,
        isCancelled := false,
        persistLog := [] ++ [(.Running, 0)],
        hookLog := [] ++ [.workflowStart],
        errLog := [],
        startedTasks := [] }
      hs rfl rfl
  rw [Workflow.execute]
  simp only [hv, List.length_nil, gt_iff_lt, Nat.lt_irrefl, if_false]
  rw [Workflow.tryBody]
  simp only [hh, initWfSt, List.drop_zero]
  rw [hloop]
  unfold Workflow.afterLoop
  simp only [hp2, hc2, hh, and_self, if_true]
  simp only [hctx]
  refine ⟨_, rfl, ?_, ?_⟩
  · simp only [hstart]
    simp [List.range_eq_range']
  · rfl

/-- Two successful iterations followed by an observed pause: the loop runs
tasks 0 and 1, then persists the pause checkpoint twice and returns early
with the context's current output. -/
theorem wfLoopGo_two_then_pause (cfg : WfCfg) (sched : Nat → Option Sig)
    (t0 t1 t2 : WTask) (rest : List WTask) (st : WfSt) (c1 c2 : Ctx)
    (hs0 : sched st.currentTaskIndex = none)
    (hs1 : sched (st.currentTaskIndex + 1) = none)
    (hs2 : sched (st.currentTaskIndex + 1 + 1) = some .pause)
    (hp : st.isPaused = false) (hc : st.isCancelled = false)
    (hstat : st.status = .Running)
    (hh : ∀ c, cfg.hookErr c = none)
    (hrun0 : t0.run st.ctx = .ok c1)
    (hrun1 : t1.run c1 = .ok c2) :
    wfLoopGo cfg sched (t0 :: t1 :: t2 :: rest) st =
      ({ st with
          ctx := c2,
          status := .Paused,
          currentTaskIndex := st.currentTaskIndex + 1 + 1,
          isPaused := true,
          persistLog := st.persistLog ++
            [(st.status, st.currentTaskIndex), (st.status, st.currentTaskIndex + 1),
              (.Paused, st.currentTaskIndex + 1 + 1), (.Paused, st.currentTaskIndex + 1 + 1)],
          hookLog := st.hookLog ++
            [.taskStart t0.name, .taskFinish t0.name, .taskStart t1.name, .taskFinish t1.name],
          startedTasks := st.startedTasks ++ [st.currentTaskIndex, st.currentTaskIndex + 1] },
        .earlyReturn c2.output) := by
  have h1 := wfLoopGo_step cfg sched t0 (t1 :: t2 :: rest) st c1 hs0 hp hc hrun0 (hh _) (hh _)
  have h2 := wfLoopGo_step cfg sched t1 (t2 :: rest)
    { st with
      ctx := c1,
      hookLog := st.hookLog ++ [.taskStart t0.name, .taskFinish t0.name],
      startedTasks := st.startedTasks ++ [st.currentTaskIndex],
      persistLog := st.persistLog ++ [(st.status, st.currentTaskIndex)],
      currentTaskIndex := st.currentTaskIndex + 1 } c2 hs1 hp hc hrun1 (hh _) (hh _)
  have h3 := wfLoopGo_pause cfg sched t2 rest
    { st with
      ctx := c2,
      hookLog := (st.hookLog ++ [.taskStart t0.name, .taskFinish t0.name]) ++
        [.taskStart t1.name, .taskFinish t1.name],
      startedTasks := (st.startedTasks ++ [st.currentTaskIndex]) ++ [st.currentTaskIndex + 1],
      persistLog := (st.persistLog ++ [(st.status, st.currentTaskIndex)]) ++
        [(st.status, st.currentTaskIndex + 1)],
      currentTaskIndex := st.currentTaskIndex + 1 + 1 } hs2 hstat hc
  rw [h1.trans (h2.trans h3)]
  simp [List.append_assoc]

/-- Running `execute` under the pause-at-2 schedule on a workflow of at least
three always-succeeding tasks: tasks 0 and 1 complete, the pause is
observed at iteration 2, the checkpoint `(Paused, 2)` is persisted, and
the call returns the context's current output. -/
theorem execute_pausedAt2 (cfg : WfCfg) (input : Val) (t0 t1 t2 : WTask)
    (rest : List WTask)
    (htasks : cfg.tasks = t0 :: t1 :: t2 :: rest)
    (hh : ∀ c, cfg.hookErr c = none)
    (hs : ∀ t ∈ cfg.tasks, ∀ ctx, ∃ ctx1, t.run ctx = .ok ctx1) :
    Workflow.execute cfg (fun _ => []) schedPauseAt2 input =
      (execPausedSt input t0 t1,
        .ok (applyTask t1 (applyTask t0 { input := input })).output) := by
  obtain ⟨c1, hrun0⟩ := hs t0 (by rw [htasks]; exact List.mem_cons_self _ _) { input := input }
  obtain ⟨c2, hrun1⟩ := hs t1 (by rw [htasks]; simp) c1
  rw [Workflow.execute]
  simp only [List.length_nil, gt_iff_lt, Nat.lt_irrefl, if_false]
  rw [Workflow.tryBody]
  simp only [hh, initWfSt, List.drop_zero, htasks]
  rw [wfLoopGo_two_then_pause cfg schedPauseAt2 t0 t1 t2 rest
    { ctx := { input := input },
      status := .Running,
      currentTaskIndex := 0,
      isPaused := false,
      isCancelled := false,
      persistLog := [] ++ [(.Running, 0)],
      hookLog := [] ++ [.workflowStart],
      errLog := [],
      startedTasks := [] } c1 c2 rfl rfl rfl rfl rfl rfl hh hrun0 hrun1]
  simp [execPausedSt, applyTask_eq hrun0, applyTask_eq hrun1]

/-- Calling `resume` on a paused workflow whose remaining tasks all succeed and
whose hooks all resolve: it runs exactly the remaining tasks in order,
completes, and returns the collapsed per-task-output object. -/
theorem resume_completes (cfg : WfCfg) (st : WfSt)
    (hh : ∀ c, cfg.hookErr c = none)
    (hs : ∀ t ∈ cfg.tasks, ∀ ctx, ∃ ctx1, t.run ctx = .ok ctx1)
    (hPaused : st.status = .Paused) (hc : st.isCancelled = false) :
    ∃ st1, Workflow.resume cfg schedNone st =
        (st1,
          .ok (.obj (foldTasks (cfg.tasks.drop st.currentTaskIndex) st.ctx).taskOutputs)) ∧
      st1.startedTasks = st.startedTasks ++
        List.range' st.currentTaskIndex (cfg.tasks.drop st.currentTaskIndex).length ∧
      st1.status = .Completed := by
  obtain ⟨st2, hloop, hctx, hstart, hidx, hp2, hc2, hstat2⟩ :=
    wfLoopGo_success cfg hh (cfg.tasks.drop st.currentTaskIndex)
      { st with
        isPaused := false,
        status := .Running,
        persistLog := st.persistLog ++ [(.Running, st.currentTaskIndex)] }
      (fun t ht ctx => hs t (List.drop_subset _ _ ht) ctx) rfl hc
  rw [Workflow.resume, if_pos hPaused]
  simp only []
  rw [hloop]
  unfold Workflow.resumeTail
  simp only [hp2, hc2, hh, and_self, if_true]
  simp only [hctx]
  refine ⟨_, rfl, ?_, ?_⟩
  · simp only [hstart]
  · rfl

/-- C2: on a workflow of at least three sequential always-succeeding
tasks, pausing while task 2 (index 1) is running makes `execute` stop
after tasks 0 and 1; the subsequent `resume()` runs exactly the tasks not
yet completed - afterwards every task has been started exactly once, in
list order - and the collapsed output returned by `resume()` equals the
output of executing the same workflow on the same input uninterrupted. -/
theorem C2_pause_resume_refinement (cfg : WfCfg) (input : Val)
    (hn : 3 ≤ cfg.tasks.length)
    (hh : ∀ c, cfg.hookErr c = none)
    (hs : ∀ t ∈ cfg.tasks, ∀ ctx, ∃ ctx1, t.run ctx = .ok ctx1) :
    (Workflow.execute cfg (fun _ => []) schedPauseAt2 input).1.startedTasks = [0, 1] ∧
    (Workflow.resume cfg schedNone
        (Workflow.execute cfg (fun _ => []) schedPauseAt2 input).1).1.startedTasks =
      List.range cfg.tasks.length ∧
    (Workflow.resume cfg schedNone
        (Workflow.execute cfg (fun _ => []) schedPauseAt2 input).1).2 =
      (Workflow.execute cfg (fun _ => []) schedNone input).2 := by
  obtain ⟨t0, t1, t2, rest, htasks⟩ :
      ∃ t0 t1 t2 rest, cfg.tasks = t0 :: t1 :: t2 :: rest := by
    rcases hl : cfg.tasks with _ | ⟨a, _ | ⟨b, _ | ⟨c, r⟩⟩⟩
    · rw [hl] at hn; simp at hn
    · rw [hl] at hn; simp at hn
    · rw [hl] at hn; simp at hn
    · exact ⟨a, b, c, r, rfl⟩
  have hex := execute_pausedAt2 cfg input t0 t1 t2 rest htasks hh hs
  rw [hex]
  obtain ⟨st1, hrs, hst1, hcomp⟩ :=
    resume_completes cfg (execPausedSt input t0 t1) hh hs rfl rfl
  refine ⟨rfl, ?_, ?_⟩
  · rw [hrs, hst1, htasks]
    show ([0, 1] : List Nat) ++ _ = _
    rw [show ([0, 1] : List Nat) = List.range' 0 2 from rfl]
    simp only [execPausedSt]
    rw [List.range'_append_1]
    simp [List.range_eq_range', List.range'_inj]
  · rw [hrs]
    obtain ⟨stU, hexU, _, _⟩ := execute_success cfg (fun _ => []) input rfl hh hs
    rw [hexU, htasks]
    simp [execPausedSt, foldTasks]

/-- Witness for C2 on a concrete three-task workflow. -/
theorem C2_pause_resume_refinement_witness :
    (Workflow.execute cfg3W (fun _ => []) schedPauseAt2 .undef).1.startedTasks = [0, 1] ∧
    (Workflow.resume cfg3W schedNone
        (Workflow.execute cfg3W (fun _ => []) schedPauseAt2 .undef).1).1.startedTasks =
      List.range 3 ∧
    (Workflow.resume cfg3W schedNone
        (Workflow.execute cfg3W (fun _ => []) schedPauseAt2 .undef).1).2 =
      (Workflow.execute cfg3W (fun _ => []) schedNone .undef).2 := by
  have hs : ∀ t ∈ cfg3W.tasks, ∀ ctx, ∃ ctx1, t.run ctx = .ok ctx1 := by
    intro t ht ctx
    simp [cfg3W] at ht
    rcases ht with rfl | rfl | rfl <;> exact ⟨_, rfl⟩
  exact C2_pause_resume_refinement cfg3W .undef (by decide) (fun c => rfl) hs

/-- When every structured middleware invokes its continuation, the
recursive chain is the before/after nesting with the task body applied
once in the middle. -/
theorem runFrom_all_next {σ : Type} (next : σ → σ) :
    ∀ (specs : List (MwSpec σ)) (s : σ), (∀ m ∈ specs, m.callsNext = true) →
      runFrom next (specs.map MwSpec.toMw) s = nestWrap specs next s := by
  intro specs
  induction specs with
  | nil => intro s _; rfl
  | cons m rest ih =>
      intro s hall
      have hm := hall m (List.mem_cons_self m rest)
      simp only [List.map_cons, runFrom, MwSpec.toMw, hm, if_true, nestWrap, List.foldr_cons]
      rw [ih (m.before s) (fun x hx => hall x (List.mem_cons_of_mem m hx))]
      rfl

/-- When some structured middleware never invokes its continuation, the
outcome of the chain is independent of the task body: the task underneath
never runs. -/
theorem runFrom_skips {σ : Type} :
    ∀ (specs : List (MwSpec σ)) (s : σ) (next1 next2 : σ → σ),
      (∃ m ∈ specs, m.callsNext = false) →
      runFrom next1 (specs.map MwSpec.toMw) s = runFrom next2 (specs.map MwSpec.toMw) s := by
  intro specs
  induction specs with
  | nil => intro s n1 n2 h; simp at h
  | cons m rest ih =>
      intro s n1 n2 h
      cases hm : m.callsNext with
      | false => simp [runFrom, MwSpec.toMw, hm]
      | true =>
          simp only [List.map_cons, runFrom, MwSpec.toMw, hm, if_true]
          rw [ih (m.before s) n1 n2 ?hrest]
          case hrest =>
            rcases h with ⟨x, hx, hxf⟩
            rcases List.mem_cons.mp hx with rfl | hx2
            · rw [hm] at hxf; cases hxf
            · exact ⟨x, hx2, hxf⟩

/-- C8: the middleware pipeline wraps each task invocation with
middleware 0 outermost - when every middleware invokes its continuation
the runner equals the explicit before/after bracketing `nestWrap`, in
which the head middleware is the outermost wrapper and the task body is
applied exactly once in the middle; if some middleware never invokes its
continuation, the task underneath never runs (the outcome does not depend
on the task body) and no error is raised (the runner returns normally);
with an empty middleware list the task body is called directly. -/
theorem C8_middleware_pipeline {σ : Type} (specs : List (MwSpec σ)) (s : σ)
    (next : σ → σ) :
    runMiddlewareWithTask ([] : List (Mw σ)) s next = next s ∧
    ((∀ m ∈ specs, m.callsNext = true) →
        runMiddlewareWithTask (specs.map MwSpec.toMw) s next = nestWrap specs next s) ∧
    ((∃ m ∈ specs, m.callsNext = false) →
        ∀ next2 : σ → σ,
          runMiddlewareWithTask (specs.map MwSpec.toMw) s next =
            runMiddlewareWithTask (specs.map MwSpec.toMw) s next2) := by
  refine ⟨rfl, ?_, ?_⟩
  · intro hall
    cases specs with
    | nil => rfl
    | cons m rest =>
        have hlen : (List.map MwSpec.toMw (m :: rest)).length > 0 := by simp
        simp only [runMiddlewareWithTask]
        rw [if_pos hlen]
        exact runFrom_all_next next (m :: rest) s hall
  · intro h next2
    cases specs with
    | nil => simp at h
    | cons m rest =>
        have hlen : (List.map MwSpec.toMw (m :: rest)).length > 0 := by simp
        simp only [runMiddlewareWithTask]
        rw [if_pos hlen, if_pos hlen]
        exact runFrom_skips (m :: rest) s next next2 h

/-- Witness for C8: two logging middlewares that both call their
continuation produce the bracketed trace with middleware 0 outermost and
the task run once. -/
theorem C8_middleware_pipeline_witness :
    runMiddlewareWithTask (mwLog2.map MwSpec.toMw) ([] : List String)
        (fun l => l ++ ["task"]) =
      ["before 0", "before 1", "task", "after 1", "after 0"] := by
  rw [(C8_middleware_pipeline mwLog2 ([] : List String) (fun l => l ++ ["task"])).2.1
    (by intro m hm; simp [mwLog2] at hm; rcases hm with rfl | rfl <;> rfl)]
  rfl

/-- C7: a `ConditionalTask` whose predicate rejects the context runs no
child task and leaves the context exactly as it was (no entry is added to
the ad hoc data map or the per-task-output map - the whole context is
unchanged); and on every `run` call, whichever way the predicate decides,
the predicate is evaluated exactly once. -/
theorem C7_conditional_false_no_side_effects (condition : Ctx → Bool)
    (tasks : List WTask) (ctx : Ctx) :
    (condition ctx = false →
        ConditionalTask.run condition tasks ctx =
          { ctx := ctx, condEvals := 1, childrenRun := [], result := .ok ctx.output }) ∧
    (ConditionalTask.run condition tasks ctx).condEvals = 1 := by
  constructor
  · intro h
    simp [ConditionalTask.run, h]
  · rw [ConditionalTask.run]
    split
    · split <;> rfl
    · rfl

/-- Witness for C7: a false predicate over a child that would throw -
nothing runs, nothing changes. -/
theorem C7_conditional_false_no_side_effects_witness :
    ConditionalTask.run (fun _ => false) [failTaskW] { input := .undef } =
      { ctx := { input := .undef }, condEvals := 1, childrenRun := [],
        result := .ok .undef } :=
  (C7_conditional_false_no_side_effects (fun _ => false) [failTaskW]
    { input := .undef }).1 rfl

/-- Inserting into the completion log is a permutation of consing. -/
theorem insertByDelay_perm (x : Nat × PChild) :
    ∀ l, List.Perm (insertByDelay x l) (x :: l) := by
  intro l
  induction l with
  | nil => exact List.Perm.refl _
  | cons y ys ih =>
      rw [insertByDelay]
      split
      · exact List.Perm.refl _
      · exact (ih.cons y).trans (List.Perm.swap x y ys)

/-- The completion log is a permutation of the registered children. -/
theorem sortByDelay_perm : ∀ l, List.Perm (sortByDelay l) l := by
  intro l
  induction l with
  | nil => exact List.Perm.refl _
  | cons x xs ih =>
      rw [sortByDelay]
      exact (insertByDelay_perm x (sortByDelay xs)).trans (ih.cons x)

/-- Reading a slot is invariant under permuting the completion log as
long as the slot indices are distinct. -/
theorem slotLookup_perm {l1 l2 : List (Nat × PChild)} (p : List.Perm l1 l2)
    (hnd : (l1.map Prod.fst).Nodup) : ∀ i, slotLookup i l1 = slotLookup i l2 := by
  induction p with
  | nil => intro i; rfl
  | cons x p ih =>
      intro i
      simp only [slotLookup]
      by_cases hx : x.1 = i
      · simp [hx]
      · simp only [hx, if_false]
        exact ih (by simpa using (List.nodup_cons.mp (by simpa using hnd)).2) i
  | swap x y l =>
      intro i
      have hxy : y.1 ≠ x.1 := by
        simp [List.nodup_cons] at hnd
        exact hnd.1.1
      simp only [slotLookup]
      by_cases hy : y.1 = i
      · have hx : ¬ x.1 = i := fun h => hxy (hy.trans h.symm)
        rw [if_pos hy, if_neg hx, if_pos hy]
      · by_cases hx : x.1 = i
        · rw [if_neg hy, if_pos hx, if_pos hx]
        · rw [if_neg hy, if_neg hx, if_neg hx, if_neg hy]
  | trans p q ihp ihq =>
      intro i
      rw [ihp hnd i, ihq (((p.map Prod.fst).nodup_iff).mp hnd) i]

/-- Reading slot `base + i` out of the registration-order log of children
indexed from `base` yields child `i`'s result. -/
theorem slotLookup_enumFrom :
    ∀ (cs : List PChild) (base i : Nat) (h : i < cs.length),
      slotLookup (base + i) (cs.enumFrom base) = (cs.get ⟨i, h⟩).result := by
  intro cs
  induction cs with
  | nil => intro base i h; exact absurd h (Nat.not_lt_zero i)
  | cons c cs ih =>
      intro base i h
      cases i with
      | zero => simp [List.enumFrom, slotLookup]
      | succ i =>
          simp only [List.enumFrom, slotLookup]
          rw [if_neg (by omega)]
          rw [show base + (i + 1) = (base + 1) + i from by omega]
          exact ih (base + 1) i (by simpa using h)

/-- The array `Promise.all` resolves with lists the child results in
registration order, whatever the delays (and hence whatever the
completion order). -/
theorem promiseAllValues_eq (children : List PChild) :
    promiseAllValues children = children.map PChild.result := by
  have hnd : ((children.enum).map Prod.fst).Nodup := by
    rw [List.enum_map_fst]
    exact List.nodup_range _
  apply List.ext_get
  · simp [promiseAllValues]
  · intro i h1 h2
    simp only [promiseAllValues, completionOrder, List.get_eq_getElem, List.getElem_map,
      List.getElem_range]
    rw [slotLookup_perm (sortByDelay_perm children.enum)
      (((sortByDelay_perm children.enum).map Prod.fst).nodup_iff.mpr hnd) i]
    have hi : i < children.length := by simpa [promiseAllValues] using h1
    have := slotLookup_enumFrom children 0 i hi
    simpa [List.enum] using this

/-- C3: `ParallelTask.run` (the inherited `Task.run` driving the
constructor's `executeFn`) resolves with the list of the child results in
the same order as the children were supplied, regardless of the order in
which the children complete. -/
theorem C3_parallel_order (name : String) (children : List PChild) (st : TaskSt) :
    (Task.run (ParallelTask.mkTaskCfg name children) st).2 =
      .ok (.list (children.map PChild.result)) ∧
    promiseAllValues children = children.map PChild.result := by
  have hp := promiseAllValues_eq children
  constructor
  · simp [Task.run, Task.runLoop, ParallelTask.mkTaskCfg, hp]
  · exact hp

/-- C4: for every attempt `n ≥ 1`,
`ExponentialBackoffStrategy.getDelay n = min (initial * 2 ^ (n - 1)) maxDelay`
and `LinearBackoffStrategy.getDelay n = min (initial * n) maxDelay`; with
`initial = 100`, `maxDelay = 2000` the exponential strategy yields
100, 200, 400, 800, 1600, 2000 on attempts 1 through 6. -/
theorem C4_backoff_formulas :
    (∀ initialDelay maxDelay n : Nat, 1 ≤ n →
        ExponentialBackoffStrategy.getDelay initialDelay maxDelay n =
            min (initialDelay * 2 ^ (n - 1)) maxDelay ∧
        LinearBackoffStrategy.getDelay initialDelay maxDelay n =
            min (initialDelay * n) maxDelay) ∧
    (List.range 6).map (fun k => ExponentialBackoffStrategy.getDelay 100 2000 (k + 1)) =
        [100, 200, 400, 800, 1600, 2000] := by
  refine ⟨fun initialDelay maxDelay n _ => ⟨rfl, rfl⟩, ?_⟩
  decide

/-- Witness for C4 at a concrete attempt number. -/
theorem C4_backoff_formulas_witness :
    ExponentialBackoffStrategy.getDelay 100 2000 5 = min (100 * 2 ^ (5 - 1)) 2000 :=
  (C4_backoff_formulas.1 100 2000 5 (by decide)).1

/-- With an always-failing unit of work, the retry loop entered after
`attempt` failures invokes the work `max 1 (retryCount - attempt)` more
times, ends with status `Failed`, and rethrows the work's error - so a
whole `run` with `retryCount = k` performs `max 1 k` invocations, not
`k + 1`. -/
theorem runLoop_always_fails (cfg : TaskCfg) (e : JsErr)
    (hw : ∀ n, cfg.work n = .error e) :
    ∀ (fuel attempt : Nat), cfg.retryCount - attempt ≤ fuel → ∀ st : TaskSt,
      (Task.runLoop cfg attempt st).1.attempts =
        st.attempts + max 1 (cfg.retryCount - attempt) ∧
      (Task.runLoop cfg attempt st).1.status = .Failed ∧
      (Task.runLoop cfg attempt st).2 = .error e := by
  intro fuel
  induction fuel with
  | zero =>
      intro attempt h st
      rw [Task.runLoop]
      simp only [hw]
      split
      · rename_i hr
        exfalso
        simp [RetryPolicy.shouldRetry] at hr
        omega
      · have hm : max 1 (cfg.retryCount - attempt) = 1 := by
          have h0 : cfg.retryCount - attempt = 0 := by omega
          simp [h0]
        exact ⟨by simp [hm], rfl, rfl⟩
  | succ fuel ih =>
      intro attempt h st
      rw [Task.runLoop]
      simp only [hw]
      split
      · rename_i hr
        have hlt : attempt + 1 < cfg.retryCount := by
          simpa [RetryPolicy.shouldRetry] using hr
        obtain ⟨ha, hs, he⟩ := ih (attempt + 1) (by omega)
          { st with
            attempts := st.attempts + 1,
            errLog := st.errLog ++ [e],
            status := .Retrying,
            sleeps := st.sleeps ++ [cfg.backoff (attempt + 1)] }
        refine ⟨?_, hs, he⟩
        rw [ha]
        have hred : ({ st with
            attempts := st.attempts + 1,
            errLog := st.errLog ++ [e],
            status := ETaskStatus.Retrying,
            sleeps := st.sleeps ++ [cfg.backoff (attempt + 1)] } : TaskSt).attempts =
            st.attempts + 1 := rfl
        rw [hred]
        have h1 : max 1 (cfg.retryCount - (attempt + 1)) = cfg.retryCount - (attempt + 1) :=
          Nat.max_eq_right (by omega)
        have h2 : max 1 (cfg.retryCount - attempt) = cfg.retryCount - attempt :=
          Nat.max_eq_right (by omega)
        rw [h1, h2]
        omega
      · rename_i hr
        have hge : cfg.retryCount ≤ attempt + 1 := by
          simp [RetryPolicy.shouldRetry] at hr
          omega
        have hm : max 1 (cfg.retryCount - attempt) = 1 :=
          Nat.max_eq_left (by omega)
        exact ⟨by simp [hm], rfl, rfl⟩

/-- A whole `Task.run` with `retryCount = k` over an always-failing unit
of work: exactly `max 1 k` invocations, final status `Failed`, rejection
with the work's own error (unwrapped). -/
theorem run_always_fails (cfg : TaskCfg) (e : JsErr)
    (hw : ∀ n, cfg.work n = .error e) (st : TaskSt) (h0 : st.attempts = 0) :
    (Task.run cfg st).1.attempts = max 1 cfg.retryCount ∧
    (Task.run cfg st).1.status = .Failed ∧
    (Task.run cfg st).2 = .error e := by
  obtain ⟨ha, hs, he⟩ := runLoop_always_fails cfg e hw (cfg.retryCount - 0) 0
    (Nat.le_refl _) { st with status := .Running }
  rw [Task.run]
  refine ⟨?_, hs, he⟩
  rw [ha]
  simp [h0]

/-- C1 (evaluation at the failing input): a task with `retryCount = 1`
whose unit of work always throws `Error("boom")` invokes the unit of work
exactly once - not the `k + 1 = 2` times the claim (and the README's
"Retry up to 3 times" gloss of `retryCount`) requires - and likewise
`retryCount = 3` yields 3 invocations, not 4.  The run rejects with the
unit of work's own error unwrapped (the code has no `ExecutionError`
class), and the final status is `Failed`. -/
theorem C1_retry_count_evaluation :
    (Task.run (alwaysFailTask 1) {}).1.attempts = 1 ∧
    (Task.run (alwaysFailTask 1) {}).1.attempts ≠ 1 + 1 ∧
    (Task.run (alwaysFailTask 3) {}).1.attempts = 3 ∧
    (Task.run (alwaysFailTask 3) {}).1.attempts ≠ 3 + 1 ∧
    (Task.run (alwaysFailTask 1) {}).2 = .error (.error "boom") ∧
    (Task.run (alwaysFailTask 1) {}).1.status = .Failed ∧
    (Task.run (alwaysFailTask 0) {}).1.attempts = 0 + 1 := by
  simp [Task.run, Task.runLoop, alwaysFailTask, RetryPolicy.shouldRetry]
